import Mathlib

/-!
Verification of the MIDI decoding core of `read_midi.py`.

The byte stream of a file is modelled as a `List Nat` (each entry one byte)
together with Python's `file.read(n)` semantics: `read n` returns the next
`min n remaining` bytes.  An iterator over a track payload is modelled as a
`List Nat` consumed from the front; `next` on an exhausted iterator is the
error `DecodeErr.endOfInput` (Python's `StopIteration`).  `struct.unpack`
with a buffer of the wrong size is the error `ChunkErr.truncatedChunk`
(Python's `struct.error`).
-/

/-- Error raised while decoding a track payload: `DecodeErr.endOfInput` is
Python's `StopIteration` from `next` on an exhausted iterator;
`DecodeErr.nameError` is the `NameError` that `parse_channel_voice` would
raise when no status mask matches (the local `name` stays unbound). -/
inductive DecodeErr where
  | endOfInput
  | nameError
deriving DecidableEq

/-- Error raised by `struct.unpack` when the buffer size does not match the
format string. -/
inductive ChunkErr where
  | truncatedChunk
deriving DecidableEq

/-- `take(n, iterator)` from the source: `[next(iterator) for _ in range(n)]`.
Returns the first `n` elements and the remaining iterator, or fails with
`endOfInput` when fewer than `n` elements remain. -/
def take (n : Nat) (track : List Nat) : Except DecodeErr (List Nat × List Nat) :=
  if n ≤ track.length then .ok (track.take n, track.drop n)
  else .error DecodeErr.endOfInput

/-- `check_mask(byte, mask)` from the source: `byte & 0xF0 == mask`. -/
def check_mask (byte mask : Nat) : Bool :=
  byte &&& 0xF0 == mask

/-- Value of a big-endian byte string, as computed by `struct.unpack` with
formats `>I` (4 bytes) and `>H` (2 bytes). -/
def unpack_be (l : List Nat) : Nat :=
  l.foldl (fun acc b => acc * 256 + b) 0

/-- `read_chunk(midi)` from the source, applied to the stream positioned just
after the 4-byte tag: `unpack(">I", midi.read(4))` fails with `struct.error`
(`truncatedChunk`) unless exactly 4 bytes were available; `midi.read(length)`
then returns up to `length` bytes (silently fewer at end of stream, per
Python file semantics).  Returns the payload and the rest of the stream. -/
def read_chunk (s : List Nat) : Except ChunkErr (List Nat × List Nat) :=
  if (s.take 4).length = 4 then
    .ok ((s.drop 4).take (unpack_be (s.take 4)),
         (s.drop 4).drop (unpack_be (s.take 4)))
  else .error ChunkErr.truncatedChunk

/-- `parse_header(chunk)` from the source: `unpack(">HHH", chunk)` requires a
buffer of exactly 6 bytes (otherwise `struct.error`) and yields three
consecutive big-endian 16-bit values. -/
def parse_header (chunk : List Nat) : Except ChunkErr (Nat × Nat × Nat) :=
  if chunk.length = 6 then
    .ok (unpack_be (chunk.take 2), unpack_be ((chunk.drop 2).take 2),
         unpack_be (chunk.drop 4))
  else .error ChunkErr.truncatedChunk

/-- One round of the `while True` loop of `iter_midi(midi)`, iterated with
explicit fuel (the loop consumes at least one byte per round, so fuel equal
to the stream length is enough): read a 4-byte tag, stop cleanly when the
tag read returns zero bytes, otherwise yield `(tag, read_chunk midi)`.
The result is the list of yielded pairs plus the terminal condition
(`none` for clean end of stream, `some e` for an uncaught error). -/
def iter_midi_fuel : Nat → List Nat → List (List Nat × List Nat) × Option ChunkErr
  | _, [] => ([], none)
  | 0, _ :: _ => ([], none)
  | fuel + 1, b :: s' =>
    match read_chunk ((b :: s').drop 4) with
    | .error e => ([], some e)
    | .ok pr =>
      let p := iter_midi_fuel fuel pr.2
      (((b :: s').take 4, pr.1) :: p.1, p.2)

/-- `iter_midi(midi)` from the source. -/
def iter_midi (s : List Nat) : List (List Nat × List Nat) × Option ChunkErr :=
  iter_midi_fuel s.length s

theorem read_chunk_len {s data rest : List Nat}
    (h : read_chunk s = .ok (data, rest)) : rest.length ≤ s.length := by
  unfold read_chunk at h
  split at h
  · simp only [Except.ok.injEq, Prod.mk.injEq] at h
    obtain ⟨-, h2⟩ := h
    subst h2
    simp only [List.length_drop]
    omega
  · exact absurd h (by simp)

theorem iter_midi_fuel_irrel :
    ∀ f g s, s.length ≤ f → s.length ≤ g →
      iter_midi_fuel f s = iter_midi_fuel g s := by
  intro f
  induction f with
  | zero =>
    intro g s hf _
    have : s = [] := List.eq_nil_of_length_eq_zero (Nat.le_zero.mp hf)
    subst this
    cases g <;> rfl
  | succ f ih =>
    intro g s hf hg
    match s with
    | [] => cases g <;> rfl
    | b :: s' =>
      match g with
      | 0 => exact absurd hg (by simp)
      | g + 1 =>
        simp only [iter_midi_fuel]
        cases hrc : read_chunk ((b :: s').drop 4) with
        | error e => rfl
        | ok pr =>
          have hlen : pr.2.length ≤ s'.length := by
            have hrc' : read_chunk ((b :: s').drop 4) = .ok (pr.1, pr.2) := by
              simpa using hrc
            have h1 := read_chunk_len hrc'
            simp only [List.length_drop, List.length_cons] at h1
            omega
          have hf' : pr.2.length ≤ f := le_trans hlen (by
            simp only [List.length_cons] at hf; omega)
          have hg' : pr.2.length ≤ g := le_trans hlen (by
            simp only [List.length_cons] at hg; omega)
          simp only [ih g pr.2 hf' hg']

/-- Length in binary digits of `n` as printed by Python's `format(n, "b")`
(`0` prints as the single digit `0`), computed with structural fuel. -/
def bit_length_fuel : Nat → Nat → Nat
  | 0, _ => 0
  | fuel + 1, n => if n = 0 then 0 else bit_length_fuel fuel (n / 2) + 1

/-- Number of digits of the Python binary formatting of `n`. -/
def bit_length (n : Nat) : Nat :=
  if n = 0 then 1 else bit_length_fuel n n

/-- Width of the string produced by `"{0:07b}".format(b)`: minimum field
width 7, zero-padded, but never truncated — a value needing more than 7
binary digits (any byte with its high bit set) keeps all of its digits. -/
def field_width (b : Nat) : Nat :=
  max 7 (bit_length b)

/-- Value of `int("".join(map("{0:07b}".format, elems)), 2)` from the
source: each element contributes `field_width` binary digits to the
concatenation. -/
def vwq_value (elems : List Nat) : Nat :=
  elems.foldl (fun acc b => acc * 2 ^ field_width b + b) 0

/-- The `while True` loop of `read_variable_width_quantity(elem, track)`:
collect bytes into `elems` until one with its high bit clear is found
(inclusive), failing with `endOfInput` when `next(track)` is exhausted
first.  Returns the collected bytes and the remaining iterator. -/
def vwq_elems : Nat → List Nat → Except DecodeErr (List Nat × List Nat)
  | elem, track =>
    if elem &&& 128 = 128 then
      match track with
      | [] => .error DecodeErr.endOfInput
      | t :: ts =>
        match vwq_elems t ts with
        | .error e => .error e
        | .ok pr => .ok (elem :: pr.1, pr.2)
    else .ok ([elem], track)

/-- `read_variable_width_quantity(elem, track)` from the source: `elem` is
the first byte (already read by the caller), `track` the rest of the
iterator.  Returns the decoded value and the remaining iterator. -/
def read_variable_width_quantity (elem : Nat) (track : List Nat) :
    Except DecodeErr (Nat × List Nat) :=
  match vwq_elems elem track with
  | .error e => .error e
  | .ok pr => .ok (vwq_value pr.1, pr.2)

/-- Modelled from the spec: the repository contains no variable-length
encoder, so the canonical encoding is taken from the spec's words — each
byte contributes its low 7 bits, most-significant group first, and the high
bit of a byte being set means more bytes follow.  `encode_vlq_groups`
produces the continuation bytes (all with high bit set) of `n`'s leading
groups, with structural fuel. -/
def encode_vlq_groups : Nat → Nat → List Nat
  | 0, _ => []
  | _ + 1, 0 => []
  | fuel + 1, n + 1 =>
    encode_vlq_groups fuel ((n + 1) / 128) ++ [(n + 1) % 128 + 128]

/-- Modelled from the spec: canonical variable-length encoding of `n` —
7-bit groups, most significant first, high bit set on all but the last. -/
def encode_vlq (n : Nat) : List Nat :=
  encode_vlq_groups n (n / 128) ++ [n % 128]

/-- Payload of a channel-voice message as returned by
`parse_channel_voice`: a name, a 1-based channel, and one data byte
(`program_change` / `channel_key_pressure`) or two (all other kinds). -/
inductive CV where
  | three (name : String) (channel b1 : Nat)
  | four (name : String) (channel b1 b2 : Nat)
deriving DecidableEq

/-- Name of a channel-voice message (first tuple component in the source). -/
def cvName : CV → String
  | .three n _ _ => n
  | .four n _ _ _ => n

/-- Channel of a channel-voice message (second tuple component). -/
def cvChannel : CV → Nat
  | .three _ c _ => c
  | .four _ c _ _ => c

/-- An event yielded by `iter_events`: the kind tag of the Python triple
`(kind, delta_time, data)` together with its delta time and data. -/
inductive Event where
  | sysex (dt : Nat) (payload : List Nat)
  | meta (dt : Nat) (data : Nat × List Nat)
  | channelMode (dt : Nat) (data : List Nat)
  | channelVoice (dt : Nat) (data : CV)
  | unknownByte (dt : Nat) (b : Nat)
deriving DecidableEq

/-- `parse_sysex(track)` from the source: a variable-length length followed
by that many raw bytes. -/
def parse_sysex (track : List Nat) : Except DecodeErr (List Nat × List Nat) :=
  match track with
  | [] => .error DecodeErr.endOfInput
  | l :: track =>
    match read_variable_width_quantity l track with
    | .error e => .error e
    | .ok pr =>
      match take pr.1 pr.2 with
      | .error e => .error e
      | .ok pr2 => .ok pr2

/-- `parse_meta(track)` from the source: a meta-type byte, then a
variable-length length (always consumed), then — except for meta-type
`0x2F`, which short-circuits to an empty payload — that many raw bytes. -/
def parse_meta (track : List Nat) :
    Except DecodeErr ((Nat × List Nat) × List Nat) :=
  match track with
  | [] => .error DecodeErr.endOfInput
  | mt :: track =>
    match track with
    | [] => .error DecodeErr.endOfInput
    | l :: track =>
      match read_variable_width_quantity l track with
      | .error e => .error e
      | .ok pr =>
        if mt = 0x2F then .ok ((mt, []), pr.2)
        else
          match take pr.1 pr.2 with
          | .error e => .error e
          | .ok pr2 => .ok ((mt, pr2.1), pr2.2)

/-- `parse_channel_mode(p_byte, track)` from the source:
`bytes([p_byte, next(track)])`. -/
def parse_channel_mode (p_byte : Nat) (track : List Nat) :
    Except DecodeErr (List Nat × List Nat) :=
  match track with
  | [] => .error DecodeErr.endOfInput
  | b :: track => .ok ([p_byte, b], track)

/-- The `name_mapping` lookup loop of `parse_channel_voice`: the first mask
in insertion order whose high nibble matches wins; `none` when no mask
matches (in which case the source raises `NameError`). -/
def chanName (b : Nat) : Option String :=
  if check_mask b 0x80 then some "note_off"
  else if check_mask b 0x90 then some "note_on"
  else if check_mask b 0xA0 then some "polyphonic_key_pressure"
  else if check_mask b 0xB0 then some "controller_change"
  else if check_mask b 0xC0 then some "program_change"
  else if check_mask b 0xD0 then some "channel_key_pressure"
  else if check_mask b 0xE0 then some "pitch_bend"
  else none

/-- `parse_channel_voice(p_byte, byte, track)` from the source: channel is
`(p_byte & 0xF) + 1`; `program_change` / `channel_key_pressure` (high
nibble `0xC0` / `0xD0`) keep a single data byte, every other kind reads one
further byte. -/
def parse_channel_voice (p_byte byte : Nat) (track : List Nat) :
    Except DecodeErr (CV × List Nat) :=
  match chanName p_byte with
  | none => .error DecodeErr.nameError
  | some name =>
    if check_mask p_byte 0xC0 || check_mask p_byte 0xD0 then
      .ok (CV.three name ((p_byte &&& 0xF) + 1) byte, track)
    else
      match track with
      | [] => .error DecodeErr.endOfInput
      | d :: track => .ok (CV.four name ((p_byte &&& 0xF) + 1) byte d, track)

/-- One iteration of the `for byte in track` loop of `iter_events`: `b` is
the byte the loop header produced, `track` the rest of the iterator.
Decodes the delta time, reads the status byte, and dispatches exactly as
the source does. -/
def parse_event (b : Nat) (track : List Nat) :
    Except DecodeErr (Event × List Nat) :=
  match read_variable_width_quantity b track with
  | .error e => .error e
  | .ok pr0 =>
    match pr0.2 with
    | [] => .error DecodeErr.endOfInput
    | byte :: track2 =>
      if byte = 0xF0 ∨ byte = 0xF7 then
        (parse_sysex track2).map (fun pr => (Event.sysex pr0.1 pr.1, pr.2))
      else if byte = 0xFF then
        (parse_meta track2).map (fun pr => (Event.meta pr0.1 pr.1, pr.2))
      else if check_mask byte 0xB0 then
        match track2 with
        | [] => .error DecodeErr.endOfInput
        | n_byte :: track3 =>
          if 0x78 ≤ n_byte ∧ n_byte < 0x80 then
            (parse_channel_mode n_byte track3).map
              (fun pr => (Event.channelMode pr0.1 pr.1, pr.2))
          else
            (parse_channel_voice byte n_byte track3).map
              (fun pr => (Event.channelVoice pr0.1 pr.1, pr.2))
      else if check_mask byte 0x80 || check_mask byte 0x90 ||
          check_mask byte 0xA0 || check_mask byte 0xC0 ||
          check_mask byte 0xD0 || check_mask byte 0xE0 then
        match track2 with
        | [] => .error DecodeErr.endOfInput
        | d1 :: track3 =>
          (parse_channel_voice byte d1 track3).map
            (fun pr => (Event.channelVoice pr0.1 pr.1, pr.2))
      else .ok (Event.unknownByte pr0.1 byte, track2)

/-- The `for` loop of `iter_events(track_data)`, iterated with explicit
fuel (each event consumes at least the loop-header byte, so fuel equal to
the track length is enough).  Returns the yielded events and the terminal
condition: `none` when the iterator is exhausted at a loop boundary,
`some e` when an event aborts the generator with error `e`. -/
def iter_events_fuel : Nat → List Nat → List Event × Option DecodeErr
  | _, [] => ([], none)
  | 0, _ :: _ => ([], none)
  | fuel + 1, b :: rest =>
    match parse_event b rest with
    | .error e => ([], some e)
    | .ok pr =>
      let p := iter_events_fuel fuel pr.2
      (pr.1 :: p.1, p.2)

/-- `iter_events(track_data)` from the source. -/
def iter_events (track : List Nat) : List Event × Option DecodeErr :=
  iter_events_fuel track.length track

theorem vwq_elems_len :
    ∀ track b pr, vwq_elems b track = .ok pr → pr.2.length ≤ track.length := by
  intro track
  induction track with
  | nil =>
    intro b pr h
    by_cases hb : b &&& 128 = 128
    · simp [vwq_elems, hb] at h
    · simp only [vwq_elems, hb, if_false] at h
      cases h
      exact Nat.le_refl _
  | cons t ts ih =>
    intro b pr h
    by_cases hb : b &&& 128 = 128
    · simp only [vwq_elems, hb, if_true] at h
      cases hrec : vwq_elems t ts with
      | error e => rw [hrec] at h; cases h
      | ok pr' =>
        rw [hrec] at h
        cases h
        exact le_trans (ih t pr' hrec) (Nat.le_succ _)
    · simp only [vwq_elems, hb, if_false] at h
      cases h
      exact Nat.le_refl _

theorem read_variable_width_quantity_len {b : Nat} {track : List Nat}
    {pr : Nat × List Nat} (h : read_variable_width_quantity b track = .ok pr) :
    pr.2.length ≤ track.length := by
  unfold read_variable_width_quantity at h
  cases hrec : vwq_elems b track with
  | error e => rw [hrec] at h; cases h
  | ok pr' =>
    rw [hrec] at h
    cases h
    exact vwq_elems_len track b pr' hrec

theorem take_len {n : Nat} {track : List Nat} {pr : List Nat × List Nat}
    (h : take n track = .ok pr) : pr.2.length ≤ track.length := by
  unfold take at h
  split at h
  · cases h; simp
  · cases h

theorem parse_sysex_len {track : List Nat} {pr : List Nat × List Nat}
    (h : parse_sysex track = .ok pr) : pr.2.length ≤ track.length := by
  unfold parse_sysex at h
  split at h
  · cases h
  · rename_i l rest
    split at h
    · cases h
    · rename_i prv hv
      split at h
      · cases h
      · rename_i prt ht
        cases h
        exact le_trans (le_trans (take_len ht)
          (read_variable_width_quantity_len hv)) (Nat.le_succ _)

theorem parse_meta_len {track : List Nat} {pr : (Nat × List Nat) × List Nat}
    (h : parse_meta track = .ok pr) : pr.2.length ≤ track.length := by
  unfold parse_meta at h
  split at h
  · cases h
  · rename_i mt rest0
    split at h
    · cases h
    · rename_i l rest
      split at h
      · cases h
      · rename_i prv hv
        split at h
        · cases h
          exact le_trans (read_variable_width_quantity_len hv)
            (le_trans (Nat.le_succ _) (Nat.le_succ _))
        · split at h
          · cases h
          · rename_i prt ht
            cases h
            exact le_trans (le_trans (take_len ht)
              (read_variable_width_quantity_len hv))
              (le_trans (Nat.le_succ _) (Nat.le_succ _))

theorem parse_channel_mode_len {p : Nat} {track : List Nat}
    {pr : List Nat × List Nat} (h : parse_channel_mode p track = .ok pr) :
    pr.2.length ≤ track.length := by
  unfold parse_channel_mode at h
  split at h
  · cases h
  · cases h; exact Nat.le_succ _

theorem parse_channel_voice_len {p byte : Nat} {track : List Nat}
    {pr : CV × List Nat} (h : parse_channel_voice p byte track = .ok pr) :
    pr.2.length ≤ track.length := by
  unfold parse_channel_voice at h
  split at h
  · cases h
  · split at h
    · cases h; exact Nat.le_refl _
    · split at h
      · cases h
      · cases h; exact Nat.le_succ _

theorem parse_event_len {b : Nat} {track : List Nat} {pr : Event × List Nat}
    (h : parse_event b track = .ok pr) : pr.2.length ≤ track.length := by
  unfold parse_event at h
  split at h
  · cases h
  · rename_i pr0 hv
    have hv0 : pr0.2.length ≤ track.length := read_variable_width_quantity_len hv
    split at h
    · cases h
    · rename_i byte track2 h2
      rw [h2] at hv0
      simp only [List.length_cons] at hv0
      have htr2 : track2.length ≤ track.length := by omega
      split at h
      · cases hs : parse_sysex track2 with
        | error e => rw [hs] at h; cases h
        | ok prs =>
          rw [hs] at h
          cases h
          exact le_trans (parse_sysex_len hs) htr2
      · split at h
        · cases hm : parse_meta track2 with
          | error e => rw [hm] at h; cases h
          | ok prm =>
            rw [hm] at h
            cases h
            exact le_trans (parse_meta_len hm) htr2
        · split at h
          · split at h
            · cases h
            · rename_i n_byte track3
              have htr3 : track3.length ≤ track.length := by
                simp only [List.length_cons] at htr2
                omega
              split at h
              · cases hc : parse_channel_mode n_byte track3 with
                | error e => rw [hc] at h; cases h
                | ok prc =>
                  rw [hc] at h
                  cases h
                  exact le_trans (parse_channel_mode_len hc) htr3
              · cases hc : parse_channel_voice byte n_byte track3 with
                | error e => rw [hc] at h; cases h
                | ok prc =>
                  rw [hc] at h
                  cases h
                  exact le_trans (parse_channel_voice_len hc) htr3
          · split at h
            · split at h
              · cases h
              · rename_i d1 track3
                have htr3 : track3.length ≤ track.length := by
                  simp only [List.length_cons] at htr2
                  omega
                cases hc : parse_channel_voice byte d1 track3 with
                | error e => rw [hc] at h; cases h
                | ok prc =>
                  rw [hc] at h
                  cases h
                  exact le_trans (parse_channel_voice_len hc) htr3
            · cases h
              exact htr2

theorem iter_events_fuel_irrel :
    ∀ f g track, track.length ≤ f → track.length ≤ g →
      iter_events_fuel f track = iter_events_fuel g track := by
  intro f
  induction f with
  | zero =>
    intro g track hf _
    have : track = [] := List.eq_nil_of_length_eq_zero (Nat.le_zero.mp hf)
    subst this
    cases g <;> rfl
  | succ f ih =>
    intro g track hf hg
    match track with
    | [] => cases g <;> rfl
    | b :: rest =>
      match g with
      | 0 => exact absurd hg (by simp)
      | g + 1 =>
        simp only [iter_events_fuel]
        cases hp : parse_event b rest with
        | error e => rfl
        | ok pr =>
          have hlen : pr.2.length ≤ rest.length := parse_event_len hp
          have hf' : pr.2.length ≤ f := le_trans hlen (by
            simp only [List.length_cons] at hf; omega)
          have hg' : pr.2.length ≤ g := le_trans hlen (by
            simp only [List.length_cons] at hg; omega)
          simp only [ih g pr.2 hf' hg']

theorem iter_events_cons_err {b : Nat} {rest : List Nat} {e : DecodeErr}
    (h : parse_event b rest = .error e) :
    iter_events (b :: rest) = ([], some e) := by
  simp only [iter_events, List.length_cons, iter_events_fuel, h]

theorem iter_events_cons_ok {b : Nat} {rest : List Nat} {pr : Event × List Nat}
    (h : parse_event b rest = .ok pr) :
    iter_events (b :: rest) =
      (pr.1 :: (iter_events pr.2).1, (iter_events pr.2).2) := by
  have hlen : pr.2.length ≤ rest.length := parse_event_len h
  simp only [iter_events, List.length_cons, iter_events_fuel, h]
  rw [iter_events_fuel_irrel rest.length pr.2.length pr.2 hlen (Nat.le_refl _)]

theorem vwq_elems_err {b : Nat} {track : List Nat} {e : DecodeErr}
    (h : vwq_elems b track = .error e) : e = DecodeErr.endOfInput := by
  induction track generalizing b with
  | nil =>
    by_cases hb : b &&& 128 = 128
    · simp only [vwq_elems, hb, if_true] at h
      cases h
      rfl
    · simp [vwq_elems, hb] at h
  | cons t ts ih =>
    by_cases hb : b &&& 128 = 128
    · simp only [vwq_elems, hb, if_true] at h
      cases hrec : vwq_elems t ts with
      | error e' =>
        rw [hrec] at h
        cases h
        exact ih hrec
      | ok pr => rw [hrec] at h; cases h
    · simp [vwq_elems, hb] at h

theorem read_variable_width_quantity_err {b : Nat} {track : List Nat}
    {e : DecodeErr} (h : read_variable_width_quantity b track = .error e) :
    e = DecodeErr.endOfInput := by
  unfold read_variable_width_quantity at h
  cases hrec : vwq_elems b track with
  | error e' =>
    rw [hrec] at h
    cases h
    exact vwq_elems_err hrec
  | ok pr => rw [hrec] at h; cases h

theorem take_err {n : Nat} {track : List Nat} {e : DecodeErr}
    (h : take n track = .error e) : e = DecodeErr.endOfInput := by
  unfold take at h
  split at h
  · cases h
  · cases h; rfl

theorem parse_sysex_err {track : List Nat} {e : DecodeErr}
    (h : parse_sysex track = .error e) : e = DecodeErr.endOfInput := by
  unfold parse_sysex at h
  split at h
  · cases h; rfl
  · split at h
    · rename_i e' hv
      cases h
      exact read_variable_width_quantity_err hv
    · split at h
      · rename_i e' ht
        cases h
        exact take_err ht
      · cases h

theorem parse_meta_err {track : List Nat} {e : DecodeErr}
    (h : parse_meta track = .error e) : e = DecodeErr.endOfInput := by
  unfold parse_meta at h
  split at h
  · cases h; rfl
  · split at h
    · cases h; rfl
    · split at h
      · rename_i e' hv
        cases h
        exact read_variable_width_quantity_err hv
      · split at h
        · cases h
        · split at h
          · rename_i e' ht
            cases h
            exact take_err ht
          · cases h

theorem parse_channel_mode_err {p : Nat} {track : List Nat} {e : DecodeErr}
    (h : parse_channel_mode p track = .error e) : e = DecodeErr.endOfInput := by
  unfold parse_channel_mode at h
  split at h
  · cases h; rfl
  · cases h

theorem parse_channel_voice_err {p byte : Nat} {track : List Nat} {e : DecodeErr}
    (h : parse_channel_voice p byte track = .error e) :
    e = DecodeErr.endOfInput ∨ chanName p = none := by
  unfold parse_channel_voice at h
  split at h
  · rename_i hnone
    cases h
    exact Or.inr hnone
  · split at h
    · cases h
    · split at h
      · cases h
        exact Or.inl rfl
      · cases h

theorem chanName_of_B0 {b : Nat} (h : b &&& 0xF0 = 0xB0) :
    chanName b = some "controller_change" := by
  simp [chanName, check_mask, h]

theorem chanName_isSome_of_masks {b : Nat}
    (h : (check_mask b 0x80 || check_mask b 0x90 || check_mask b 0xA0 ||
      check_mask b 0xC0 || check_mask b 0xD0 || check_mask b 0xE0) = true) :
    ∃ s, chanName b = some s := by
  simp only [check_mask, Bool.or_eq_true, beq_iff_eq] at h
  rcases h with ((((h | h) | h) | h) | h) | h <;>
    simp [chanName, check_mask, h]

theorem parse_event_err {b : Nat} {track : List Nat} {e : DecodeErr}
    (h : parse_event b track = .error e) : e = DecodeErr.endOfInput := by
  unfold parse_event at h
  split at h
  · rename_i e' hv
    cases h
    exact read_variable_width_quantity_err hv
  · rename_i pr0 hv
    split at h
    · cases h; rfl
    · rename_i byte track2 h2
      split at h
      · cases hs : parse_sysex track2 with
        | error e' =>
          rw [hs] at h
          simp only [Except.map] at h
          cases h
          exact parse_sysex_err hs
        | ok prs =>
          rw [hs] at h
          simp only [Except.map] at h
          cases h
      · split at h
        · cases hm : parse_meta track2 with
          | error e' =>
            rw [hm] at h
            simp only [Except.map] at h
            cases h
            exact parse_meta_err hm
          | ok prm =>
            rw [hm] at h
            simp only [Except.map] at h
            cases h
        · split at h
          · rename_i hB0
            split at h
            · cases h; rfl
            · rename_i n_byte track3
              split at h
              · cases hc : parse_channel_mode n_byte track3 with
                | error e' =>
                  rw [hc] at h
                  simp only [Except.map] at h
                  cases h
                  exact parse_channel_mode_err hc
                | ok prc =>
                  rw [hc] at h
                  simp only [Except.map] at h
                  cases h
              · cases hc : parse_channel_voice byte n_byte track3 with
                | error e' =>
                  rw [hc] at h
                  simp only [Except.map] at h
                  cases h
                  rcases parse_channel_voice_err hc with he | hn
                  · exact he
                  · rw [chanName_of_B0 (by simpa [check_mask] using hB0)] at hn
                    cases hn
                | ok prc =>
                  rw [hc] at h
                  simp only [Except.map] at h
                  cases h
          · split at h
            · rename_i hmasks
              split at h
              · cases h; rfl
              · rename_i d1 track3
                cases hc : parse_channel_voice byte d1 track3 with
                | error e' =>
                  rw [hc] at h
                  simp only [Except.map] at h
                  cases h
                  rcases parse_channel_voice_err hc with he | hn
                  · exact he
                  · obtain ⟨s, hs⟩ := chanName_isSome_of_masks hmasks
                    rw [hs] at hn
                    cases hn
                | ok prc =>
                  rw [hc] at h
                  simp only [Except.map] at h
                  cases h
            · cases h

theorem iter_events_err_aux :
    ∀ n track evs e, track.length ≤ n → iter_events track = (evs, some e) →
      e = DecodeErr.endOfInput := by
  intro n
  induction n with
  | zero =>
    intro track evs e hlen h
    have : track = [] := List.eq_nil_of_length_eq_zero (Nat.le_zero.mp hlen)
    subst this
    cases h
  | succ n ih =>
    intro track evs e hlen h
    match track with
    | [] => cases h
    | b :: rest =>
      cases hp : parse_event b rest with
      | error e' =>
        rw [iter_events_cons_err hp] at h
        cases h
        exact parse_event_err hp
      | ok pr =>
        rw [iter_events_cons_ok hp] at h
        have h2 : (iter_events pr.2).2 = some e := congrArg Prod.snd h
        have hlen' : pr.2.length ≤ n := by
          have := parse_event_len hp
          simp only [List.length_cons] at hlen
          omega
        exact ih pr.2 (iter_events pr.2).1 e hlen'
          (by rw [← h2])

theorem parse_meta_eot {l n : Nat} {ls rem : List Nat}
    (h : read_variable_width_quantity l ls = .ok (n, rem)) :
    parse_meta (0x2F :: l :: ls) = .ok ((0x2F, []), rem) := by
  simp [parse_meta, h]

theorem chanName_cv_cases {p : Nat} {name : String} (h : chanName p = some name) :
    (check_mask p 0xC0 || check_mask p 0xD0) = true ↔
      (name = "program_change" ∨ name = "channel_key_pressure") := by
  unfold chanName at h
  split_ifs at h with h1 h2 h3 h4 h5 h6 h7 <;> cases h <;>
    simp_all [check_mask]

theorem read_chunk_append {lenb payload rest : List Nat}
    (hl : lenb.length = 4) (hp : payload.length = unpack_be lenb) :
    read_chunk (lenb ++ (payload ++ rest)) = .ok (payload, rest) := by
  have ht : (lenb ++ (payload ++ rest)).take 4 = lenb := by
    rw [← hl]
    exact List.take_left _ _
  have hd : (lenb ++ (payload ++ rest)).drop 4 = payload ++ rest := by
    rw [← hl]
    exact List.drop_left _ _
  have htp : (payload ++ rest).take (unpack_be lenb) = payload := by
    rw [← hp]
    exact List.take_left _ _
  have hdp : (payload ++ rest).drop (unpack_be lenb) = rest := by
    rw [← hp]
    exact List.drop_left _ _
  rw [read_chunk, ht, hd, hl, htp, hdp]
  simp

theorem iter_midi_cons {s data rest : List Nat} (hne : s ≠ [])
    (h : read_chunk (s.drop 4) = .ok (data, rest)) :
    iter_midi s = ((s.take 4, data) :: (iter_midi rest).1, (iter_midi rest).2) := by
  match s with
  | [] => exact absurd rfl hne
  | b :: s' =>
    have hlen : rest.length ≤ s'.length := by
      have h1 := read_chunk_len h
      simp only [List.length_drop, List.length_cons] at h1
      omega
    simp only [iter_midi, List.length_cons, iter_midi_fuel, h]
    rw [iter_midi_fuel_irrel s'.length rest.length rest hlen (Nat.le_refl _)]

theorem vwq_elems_all_cont :
    ∀ bs b, b &&& 128 = 128 → (∀ x ∈ bs, x &&& 128 = 128) →
      vwq_elems b bs = .error DecodeErr.endOfInput := by
  intro bs
  induction bs with
  | nil =>
    intro b hb _
    simp [vwq_elems, hb]
  | cons t ts ih =>
    intro b hb hall
    have hbt : t &&& 128 = 128 := hall t (List.mem_cons_self t ts)
    have hall' : ∀ x ∈ ts, x &&& 128 = 128 :=
      fun x hx => hall x (List.mem_cons_of_mem _ hx)
    simp [vwq_elems, hb, ih t hbt hall']

/-- Claim C1: the spec claims that decoding the canonical variable-length
encoding of `n` yields `n`, in particular at the boundary value `128`.
The code violates this: Python's `"{0:07b}"` zero-pads to width 7 but
never truncates, so a continuation byte (high bit set, value ≥ 0x80)
contributes all 8 of its bits instead of its low 7.  The canonical
encoding `[0x81, 0x00]` of `128` therefore decodes to `16512`, not `128`.
This theorem evaluates the code at the failing input. -/
theorem vlq_roundtrip_fails_at_128 :
    encode_vlq 128 = [0x81, 0x00] ∧
    read_variable_width_quantity 0x81 [0x00] = .ok (16512, []) ∧
    (16512 : Nat) ≠ 128 :=
  ⟨rfl, rfl, by decide⟩

/-- Claim C2: exhaustion of the input stream before a required byte is
available fails with `endOfInput`, aborts the whole event sequence, and
yields no partial event for the failed range: (1) a variable-length
quantity all of whose available bytes have the high bit set fails with
`endOfInput`; (2) an event whose decoding fails contributes no event and
terminates the sequence with that error; (3) a successfully decoded event
prepends to the decode of the remaining stream, so a later failure aborts
everything after the complete events; (4) every error `iter_events`
terminates with is `endOfInput`. -/
theorem exhausted_stream_aborts_with_endOfInput :
    (∀ b bs, b &&& 128 = 128 → (∀ x ∈ bs, x &&& 128 = 128) →
      read_variable_width_quantity b bs = .error DecodeErr.endOfInput) ∧
    (∀ b bs e, parse_event b bs = .error e →
      iter_events (b :: bs) = ([], some e)) ∧
    (∀ b bs pr, parse_event b bs = .ok pr →
      iter_events (b :: bs) =
        (pr.1 :: (iter_events pr.2).1, (iter_events pr.2).2)) ∧
    (∀ track evs e, iter_events track = (evs, some e) →
      e = DecodeErr.endOfInput) := by
  refine ⟨?_, ?_, ?_, ?_⟩
  · intro b bs hb hall
    simp [read_variable_width_quantity, vwq_elems_all_cont bs b hb hall]
  · intro b bs e h
    exact iter_events_cons_err h
  · intro b bs pr h
    exact iter_events_cons_ok h
  · intro track evs e h
    exact iter_events_err_aux track.length track evs e (Nat.le_refl _) h

theorem exhausted_stream_aborts_with_endOfInput_witness :
    ((129 &&& 128 = 128) ∧
      read_variable_width_quantity 129 [] = .error DecodeErr.endOfInput) ∧
    (parse_event 0 [] = .error DecodeErr.endOfInput ∧
      iter_events [0] = ([], some DecodeErr.endOfInput)) ∧
    (parse_event 0 [144, 60, 64] =
        .ok (Event.channelVoice 0 (CV.four "note_on" 1 60 64), []) ∧
      iter_events [0, 144, 60, 64] =
        (Event.channelVoice 0 (CV.four "note_on" 1 60 64) ::
          (iter_events []).1, (iter_events []).2)) ∧
    (iter_events [128] = ([], some DecodeErr.endOfInput) ∧
      DecodeErr.endOfInput = DecodeErr.endOfInput) :=
  ⟨⟨rfl, exhausted_stream_aborts_with_endOfInput.1 129 [] rfl
      (fun x hx => absurd hx (List.not_mem_nil x))⟩,
   ⟨rfl, exhausted_stream_aborts_with_endOfInput.2.1 0 [] _ rfl⟩,
   ⟨rfl, exhausted_stream_aborts_with_endOfInput.2.2.1 0 [144, 60, 64]
      (Event.channelVoice 0 (CV.four "note_on" 1 60 64), []) rfl⟩,
   ⟨rfl, exhausted_stream_aborts_with_endOfInput.2.2.2 [128] [] _ rfl⟩⟩

/-- Claim C3: a meta event with meta-type `0x2F` gets an empty payload
regardless of the encoded length value (the length is consumed but not
honoured), and the track payload `00 FF 2F 00` decodes to exactly one such
event with the payload fully consumed and a clean termination. -/
theorem meta_end_of_track_empty_payload :
    (∀ l ls n rem, read_variable_width_quantity l ls = .ok (n, rem) →
      parse_meta (0x2F :: l :: ls) = .ok ((0x2F, []), rem)) ∧
    iter_events [0x00, 0xFF, 0x2F, 0x00] = ([Event.meta 0 (0x2F, [])], none) :=
  ⟨fun _ _ _ _ h => parse_meta_eot h, rfl⟩

theorem meta_end_of_track_empty_payload_witness :
    read_variable_width_quantity 2 [] = .ok (2, []) ∧
    parse_meta [0x2F, 2] = .ok ((0x2F, []), []) :=
  ⟨rfl, meta_end_of_track_empty_payload.1 2 [] 2 [] rfl⟩

/-- Claim C4: for an event whose status byte has high nibble `0xB`, the
decoder reads one more byte; if it lies in `[0x78, 0x7F]` the event is a
`ChannelMode` made of that byte and the following one, otherwise a
`ChannelVoice` from the status byte and that byte.  Concretely,
`00 B0 07 40` decodes to a `controller_change` `ChannelVoice` on channel 1
with data bytes `(0x07, 0x40)`, and `00 B0 7B 00` to a `ChannelMode` with
raw bytes `(0x7B, 0x00)`. -/
theorem controller_family_dispatch :
    (∀ b bs dt stat nb rest,
      read_variable_width_quantity b bs = .ok (dt, stat :: nb :: rest) →
      check_mask stat 0xB0 = true →
      ((0x78 ≤ nb ∧ nb < 0x80) →
        parse_event b bs =
          (parse_channel_mode nb rest).map
            (fun pr => (Event.channelMode dt pr.1, pr.2))) ∧
      (¬(0x78 ≤ nb ∧ nb < 0x80) →
        parse_event b bs =
          (parse_channel_voice stat nb rest).map
            (fun pr => (Event.channelVoice dt pr.1, pr.2)))) ∧
    iter_events [0x00, 0xB0, 0x07, 0x40] =
      ([Event.channelVoice 0 (CV.four "controller_change" 1 0x07 0x40)], none) ∧
    iter_events [0x00, 0xB0, 0x7B, 0x00] =
      ([Event.channelMode 0 [0x7B, 0x00]], none) := by
  refine ⟨?_, rfl, rfl⟩
  intro b bs dt stat nb rest hv hmask
  have hstat : stat &&& 0xF0 = 0xB0 := by simpa [check_mask] using hmask
  have h1 : ¬(stat = 0xF0 ∨ stat = 0xF7) := by
    rintro (rfl | rfl) <;> exact absurd hstat (by decide)
  have h2 : ¬(stat = 0xFF) := by
    rintro rfl
    exact absurd hstat (by decide)
  constructor <;> intro hrange
  · simp only [parse_event, hv, if_neg h1, if_neg h2, if_pos hmask]
    rw [if_pos hrange]
  · simp only [parse_event, hv, if_neg h1, if_neg h2, if_pos hmask]
    rw [if_neg hrange]

theorem controller_family_dispatch_witness :
    (read_variable_width_quantity 0 [0xB0, 0x7B, 0x00] =
        .ok (0, [0xB0, 0x7B, 0x00]) ∧
      check_mask 0xB0 0xB0 = true ∧
      (0x78 ≤ 0x7B ∧ 0x7B < 0x80) ∧
      parse_event 0 [0xB0, 0x7B, 0x00] =
        (parse_channel_mode 0x7B [0x00]).map
          (fun pr => (Event.channelMode 0 pr.1, pr.2))) ∧
    (read_variable_width_quantity 0 [0xB0, 0x07, 0x40] =
        .ok (0, [0xB0, 0x07, 0x40]) ∧
      ¬(0x78 ≤ 0x07 ∧ 0x07 < 0x80) ∧
      parse_event 0 [0xB0, 0x07, 0x40] =
        (parse_channel_voice 0xB0 0x07 [0x40]).map
          (fun pr => (Event.channelVoice 0 pr.1, pr.2))) :=
  ⟨⟨rfl, rfl, by decide,
    (controller_family_dispatch.1 0 [0xB0, 0x7B, 0x00] 0 0xB0 0x7B [0x00]
      rfl rfl).1 (by decide)⟩,
   ⟨rfl, by decide,
    (controller_family_dispatch.1 0 [0xB0, 0x07, 0x40] 0 0xB0 0x07 [0x40]
      rfl rfl).2 (by decide)⟩⟩

/-- Claim C5: every channel-voice message carries channel
`(status & 0x0F) + 1`, and it has exactly one data byte precisely when its
name is `program_change` or `channel_key_pressure` (two otherwise).
Concretely, `00 90 3C 40` decodes to one `ChannelVoice`: delta time 0,
name `note_on`, channel 1, data bytes `0x3C` and `0x40`. -/
theorem channel_voice_shape :
    (∀ p b track cv rem, parse_channel_voice p b track = .ok (cv, rem) →
      cvChannel cv = (p &&& 0xF) + 1 ∧
      ((cvName cv = "program_change" ∨ cvName cv = "channel_key_pressure") ↔
        ∃ n c d1, cv = CV.three n c d1)) ∧
    iter_events [0x00, 0x90, 0x3C, 0x40] =
      ([Event.channelVoice 0 (CV.four "note_on" 1 0x3C 0x40)], none) := by
  refine ⟨?_, rfl⟩
  intro p b track cv rem h
  unfold parse_channel_voice at h
  split at h
  · cases h
  · rename_i name hname
    split at h
    · rename_i hcd
      cases h
      refine ⟨rfl, ?_⟩
      exact iff_of_true ((chanName_cv_cases hname).mp hcd) ⟨name, _, _, rfl⟩
    · rename_i hcd
      split at h
      · cases h
      · cases h
        refine ⟨rfl, ?_⟩
        refine iff_of_false (fun hcon => hcd ?_) (fun hcon => ?_)
        · exact (chanName_cv_cases hname).mpr hcon
        · obtain ⟨n, c, d1, hc⟩ := hcon
          cases hc

theorem channel_voice_shape_witness :
    parse_channel_voice 0x90 0x3C [0x40] =
      .ok (CV.four "note_on" 1 0x3C 0x40, []) ∧
    cvChannel (CV.four "note_on" 1 0x3C 0x40) = (0x90 &&& 0xF) + 1 ∧
    ((cvName (CV.four "note_on" 1 0x3C 0x40) = "program_change" ∨
        cvName (CV.four "note_on" 1 0x3C 0x40) = "channel_key_pressure") ↔
      ∃ n c d1, CV.four "note_on" 1 0x3C 0x40 = CV.three n c d1) :=
  ⟨rfl,
   (channel_voice_shape.1 0x90 0x3C [0x40] (CV.four "note_on" 1 0x3C 0x40)
      [] rfl).1,
   (channel_voice_shape.1 0x90 0x3C [0x40] (CV.four "note_on" 1 0x3C 0x40)
      [] rfl).2⟩

/-- Claim C6: the chunk reader terminates cleanly (empty chunk sequence, no
error) when the first tag read returns zero bytes, and fails with
`truncatedChunk` when the stream holds exactly 2 bytes where a 4-byte tag
was expected. -/
theorem chunk_reader_end_conditions :
    iter_midi [] = ([], none) ∧
    ∀ a b : Nat, iter_midi [a, b] = ([], some ChunkErr.truncatedChunk) :=
  ⟨rfl, fun _ _ => rfl⟩

theorem chunk_reader_end_conditions_witness :
    iter_midi [77, 84] = ([], some ChunkErr.truncatedChunk) :=
  chunk_reader_end_conditions.2 77 84

/-- Claim C7 counterexample: the claim states that a successful chunk read
always advances the cursor by `4 + 4 + L` bytes and returns a payload of
length exactly `L`.  On the stream below the declared length is `5` but
only 2 payload bytes remain; `midi.read(5)` silently returns 2 bytes, the
read succeeds (no error is raised), the payload has length `2 ≠ 5`, and
the whole 10-byte stream is consumed rather than `4 + 4 + 5 = 13` bytes. -/
theorem chunk_declared_length_counterexample :
    iter_midi [77, 84, 104, 100, 0, 0, 0, 5, 1, 2] =
      ([([77, 84, 104, 100], [1, 2])], none) ∧
    unpack_be [0, 0, 0, 5] = 5 ∧
    ([1, 2] : List Nat).length ≠ 5 ∧
    ([77, 84, 104, 100, 0, 0, 0, 5, 1, 2] : List Nat).length ≠ 4 + 4 + 5 :=
  ⟨rfl, rfl, by decide, by decide⟩

/-- Claim C7 (amended): provided the stream actually contains `L` payload
bytes after the 4-byte length field (with `L` its declared big-endian
value), reading the chunk succeeds, returns exactly the `L` payload bytes,
resumes after them, and the bytes consumed before the remainder number
exactly `4 + 4 + L`. -/
theorem chunk_read_advances_declared_length :
    ∀ tag lenb payload rest : List Nat,
      tag.length = 4 → lenb.length = 4 → payload.length = unpack_be lenb →
      iter_midi (tag ++ lenb ++ payload ++ rest) =
        ((tag, payload) :: (iter_midi rest).1, (iter_midi rest).2) ∧
      (tag ++ lenb ++ payload ++ rest).length =
        4 + 4 + unpack_be lenb + rest.length := by
  intro tag lenb payload rest htag hlen hpay
  have hassoc : tag ++ lenb ++ payload ++ rest =
      tag ++ (lenb ++ (payload ++ rest)) := by
    simp [List.append_assoc]
  constructor
  · rw [hassoc]
    have hne : tag ++ (lenb ++ (payload ++ rest)) ≠ [] := by
      intro hcon
      have hlencon := congrArg List.length hcon
      simp [htag] at hlencon
    have hdrop : (tag ++ (lenb ++ (payload ++ rest))).drop 4 =
        lenb ++ (payload ++ rest) := by
      rw [← htag]
      exact List.drop_left _ _
    have htake : (tag ++ (lenb ++ (payload ++ rest))).take 4 = tag := by
      rw [← htag]
      exact List.take_left _ _
    have hrc : read_chunk ((tag ++ (lenb ++ (payload ++ rest))).drop 4) =
        .ok (payload, rest) := by
      rw [hdrop]
      exact read_chunk_append hlen hpay
    rw [iter_midi_cons hne hrc, htake]
  · simp only [List.length_append, htag, hlen, hpay]

theorem chunk_read_advances_declared_length_witness :
    (([77, 84, 114, 107] : List Nat).length = 4 ∧
      ([0, 0, 0, 1] : List Nat).length = 4 ∧
      ([7] : List Nat).length = unpack_be [0, 0, 0, 1]) ∧
    iter_midi ([77, 84, 114, 107] ++ [0, 0, 0, 1] ++ [7] ++ []) =
      (([77, 84, 114, 107], [7]) :: (iter_midi []).1, (iter_midi []).2) ∧
    ([77, 84, 114, 107] ++ [0, 0, 0, 1] ++ [7] ++ ([] : List Nat)).length =
      4 + 4 + unpack_be [0, 0, 0, 1] + ([] : List Nat).length :=
  ⟨⟨rfl, rfl, rfl⟩,
   chunk_read_advances_declared_length [77, 84, 114, 107] [0, 0, 0, 1] [7] []
     rfl rfl rfl⟩

/-- Claim C8: the header decoder, given exactly 6 bytes, returns the three
consecutive big-endian 16-bit fields with no range validation of any of
them, fails with `truncatedChunk` on fewer than 6 bytes, and decodes the
payload `00 01 00 02 00 60` to `(format 1, tracks 2, division 96)`. -/
theorem parse_header_fields :
    (∀ a b c d e f : Nat, parse_header [a, b, c, d, e, f] =
      .ok (a * 256 + b, c * 256 + d, e * 256 + f)) ∧
    (∀ chunk : List Nat, chunk.length < 6 →
      parse_header chunk = .error ChunkErr.truncatedChunk) ∧
    parse_header [0x00, 0x01, 0x00, 0x02, 0x00, 0x60] = .ok (1, 2, 96) := by
  refine ⟨?_, ?_, rfl⟩
  · intro a b c d e f
    simp [parse_header, unpack_be]
  · intro chunk hlt
    have hne : chunk.length ≠ 6 := by omega
    simp [parse_header, hne]

theorem parse_header_fields_witness :
    parse_header [1, 2, 3, 4, 5, 6] =
      .ok (1 * 256 + 2, 3 * 256 + 4, 5 * 256 + 6) ∧
    ([1, 2] : List Nat).length < 6 ∧
    parse_header [1, 2] = .error ChunkErr.truncatedChunk :=
  ⟨parse_header_fields.1 1 2 3 4 5 6, by decide,
   parse_header_fields.2.1 [1, 2] (by decide)⟩

/-- Claim C9: the header decoder fails for every payload whose length is
not exactly 6 — payloads longer than 6 bytes included, since
`unpack(">HHH", chunk)` demands an exact buffer size. -/
theorem parse_header_rejects_wrong_length :
    ∀ chunk : List Nat, chunk.length ≠ 6 →
      parse_header chunk = .error ChunkErr.truncatedChunk := by
  intro chunk h
  simp [parse_header, h]

theorem parse_header_rejects_wrong_length_witness :
    ([0, 1, 0, 2, 0, 96, 0] : List Nat).length ≠ 6 ∧
    parse_header [0, 1, 0, 2, 0, 96, 0] = .error ChunkErr.truncatedChunk :=
  ⟨by decide, parse_header_rejects_wrong_length [0, 1, 0, 2, 0, 96, 0]
    (by decide)⟩

/-- Claim C10: a meta event with meta-type `0x2F` and declared length
`n > 0` consumes only the delta-time bytes, the `0xFF` status, the
meta-type byte, and the length bytes; the `n` declared payload bytes stay
in the stream and the decoder continues on them as if they began further
events. -/
theorem meta_eot_skips_declared_payload :
    ∀ b bs dt l ls n rest,
      read_variable_width_quantity b bs = .ok (dt, 0xFF :: 0x2F :: l :: ls) →
      read_variable_width_quantity l ls = .ok (n, rest) → 0 < n →
      iter_events (b :: bs) =
        (Event.meta dt (0x2F, []) :: (iter_events rest).1,
          (iter_events rest).2) := by
  intro b bs dt l ls n rest hv hl hn
  have hpe : parse_event b bs = .ok (Event.meta dt (0x2F, []), rest) := by
    simp only [parse_event, hv, if_neg (by decide : ¬(255 = 240 ∨ 255 = 247)),
      if_pos (rfl : (255 : Nat) = 255)]
    rw [parse_meta_eot hl]
    rfl
  simpa using iter_events_cons_ok hpe

theorem meta_eot_skips_declared_payload_witness :
    read_variable_width_quantity 0 [0xFF, 0x2F, 0x01, 0x42] =
      .ok (0, [0xFF, 0x2F, 0x01, 0x42]) ∧
    read_variable_width_quantity 0x01 [0x42] = .ok (1, [0x42]) ∧
    (0 : Nat) < 1 ∧
    iter_events [0x00, 0xFF, 0x2F, 0x01, 0x42] =
      (Event.meta 0 (0x2F, []) :: (iter_events [0x42]).1,
        (iter_events [0x42]).2) :=
  ⟨rfl, rfl, by decide,
   meta_eot_skips_declared_payload 0 [0xFF, 0x2F, 0x01, 0x42] 0 0x01 [0x42]
     1 [0x42] rfl rfl (by decide)⟩
